import Mathlib

/-!
Shallow embedding of the homopolymer-stripped index support module
(`support/homopolymers.py`): the `HPSIndex` writer (mode `'w'`), the
`HPSIndex` reader (mode `'r'`), and the per-reference coordinate query of
the specification.  Files are modelled as byte lists (one `Nat` per byte);
`struct` little-endian packing is rendered by `u16le`/`u32le`; Python
exceptions are explicit values, and an operation that can raise returns its
resulting object state together with an optional exception (a raise happens
at a definite program point, so mutations made before it are kept).
-/

/-- The byte string of `struct.pack('<H', n)` for an in-range value
(`n < 2^16`), written with mod so the function is total; Python's `struct`
raises `struct.error` above the range (it never wraps), and every theorem
below engages `u16le` only at in-range values. -/
def u16le (n : Nat) : List Nat := [n % 256, n / 256 % 256]

/-- The byte string of `struct.pack('<I', n)` for an in-range value
(`n < 2^32`), written with mod so the function is total; Python's `struct`
raises `struct.error` above the range (it never wraps) — `HPSIndexW.write`
models that raise explicitly for `pos` and `_cur_genome_offset`, and every
other use below engages `u32le` only at in-range values. -/
def u32le (n : Nat) : List Nat :=
  [n % 256, n / 256 % 256, n / 65536 % 256, n / 16777216 % 256]

/-- Little-endian `struct.unpack` of a whole byte list as one integer. -/
def decodeLE : List Nat → Nat
  | [] => 0
  | b :: rest => b + 256 * decodeLE rest

/-- Python dict assignment `d[k] = v`, on an association list: overwrite the
existing binding of `k` if present, otherwise append a new one. -/
def assocSet : List (List Nat × Nat) → List Nat → Nat → List (List Nat × Nat)
  | [], k, v => [(k, v)]
  | (k₀, v₀) :: rest, k, v =>
    if k₀ = k then (k, v) :: rest else (k₀, v₀) :: assocSet rest k v

/-- Python dict lookup: `d[k]` when present (`k in d` is `(assocGet d k).isSome`). -/
def assocGet : List (List Nat × Nat) → List Nat → Option Nat
  | [], _ => none
  | (k₀, v₀) :: rest, k => if k₀ = k then some v₀ else assocGet rest k

/-- `HPSIndex._magic = 0xCCBB601C`. -/
def HPSIndex_magic : Nat := 0xCCBB601C

/-- Exceptions the writer methods can raise.  Both are `ValueError` at
runtime in the source; they are distinguished here by their cause. -/
inductive WErr
  /-- `ValueError("Repeat-count is too high at position ...")` raised by
  `HPSIndex.write` when `count > 0xFFFFFFFF`. -/
  | repeatCountTooHigh
  /-- `struct.error` raised by `struct.pack('<III', pos, count, offset)` when
  `pos` or `_cur_genome_offset` exceeds `0xFFFFFFFF`: Python's `struct`
  raises for an out-of-range `'<I'` value, it never wraps.  It is raised
  while the argument of `fileobj.write` is evaluated, hence before any
  mutation and before the closed-file check can fire. -/
  | packError
  /-- `ValueError` raised by writing to a file object that is already closed. -/
  | onClosedFile
  deriving DecidableEq

/-- Exceptions the reader path (`HPSIndex.__init__` with mode `'r'`) can raise. -/
inductive RdErr
  /-- `struct.error`: an `unpack` was handed fewer bytes than its format needs
  (a `read` that ran past end-of-file returned a short string). -/
  | structError
  /-- `AssertionError` from `assert filemagic == HPSIndex._magic`. -/
  | assertionError
  /-- `IOError` from `seek(-(epilog_len + isize), 2)` landing before the
  start of the file. -/
  | seekError
  deriving DecidableEq

/-- The writer state of `HPSIndex` opened with mode `'w'`.  `fileBytes` is
everything written to the file object so far and `fileOpen` whether that
file object is still open; the remaining fields are the instance attributes
of the same names (`_cur_pos`, `refs`, `_ref_offsets`, `_ref_counts`,
`_cur_ref`, `_cur_count`, `_cur_genome_offset`). -/
structure HPSIndexW where
  fileBytes : List Nat
  fileOpen : Bool
  cur_pos : Nat
  refs : List (List Nat)
  ref_offsets : List (List Nat × Nat)
  ref_counts : List (List Nat × Nat)
  cur_ref : Option (List Nat)
  cur_count : Nat
  cur_genome_offset : Nat
  deriving DecidableEq

/-- `HPSIndex.__init__(fname, 'w')`: open the file, write the magic, advance
`_cur_pos` by `calcsize('<I') = 4`, and zero-initialise the bookkeeping. -/
def HPSIndexW.init : HPSIndexW :=
  { fileBytes := u32le HPSIndex_magic
    fileOpen := true
    cur_pos := 4
    refs := []
    ref_offsets := []
    ref_counts := []
    cur_ref := none
    cur_count := 0
    cur_genome_offset := 0 }

/-- `HPSIndex.write_ref(ref)` in write mode (the `mode != 'w'` guard cannot
fire on a writer state).  `if self._cur_ref:` is Python truthiness: it is
taken for a current reference that is a non-empty string. -/
def HPSIndexW.write_ref (w : HPSIndexW) (ref : List Nat) : HPSIndexW :=
  let w₁ :=
    match w.cur_ref with
    | some r =>
      if r = [] then w
      else { w with ref_counts := assocSet w.ref_counts r w.cur_count }
    | none => w
  { w₁ with
    refs := w₁.refs ++ [ref]
    cur_ref := some ref
    cur_count := 0
    ref_offsets := assocSet w₁.ref_offsets ref w₁.cur_pos }

/-- `HPSIndex.write(pos, count)` in write mode: reject `count > 0xFFFFFFFF`
(raised before any mutation); then `struct.pack('<III', pos, count,
self._cur_genome_offset)` raises `struct.error` if `pos` or
`_cur_genome_offset` is itself above `0xFFFFFFFF` (the pack is evaluated
before `fileobj.write` is entered, so again nothing is mutated); otherwise
append the packed record and advance `_cur_pos`, `_cur_count`, and
`_cur_genome_offset`.  Writing to a closed file object also raises before
any mutation. -/
def HPSIndexW.write (w : HPSIndexW) (pos count : Nat) : HPSIndexW × Option WErr :=
  if count > 0xFFFFFFFF then (w, some WErr.repeatCountTooHigh)
  else if pos > 0xFFFFFFFF ∨ w.cur_genome_offset > 0xFFFFFFFF then (w, some WErr.packError)
  else if w.fileOpen then
    ({ w with
        fileBytes := w.fileBytes ++ (u32le pos ++ u32le count ++ u32le w.cur_genome_offset)
        cur_pos := w.cur_pos + 12
        cur_count := w.cur_count + 1
        cur_genome_offset := w.cur_genome_offset + count }, none)
  else (w, some WErr.onClosedFile)

/-- The footer string `s` accumulated by `HPSIndex.close`: for each reference
in write order, `struct.pack('<H%ssII' % len(ref), len(ref), ref, count,
offset)`, where `count` and `offset` default to `0` when the reference is
missing from `_ref_counts` / `_ref_offsets`. -/
def epilogBytes (counts offsets : List (List Nat × Nat)) : List (List Nat) → List Nat
  | [] => []
  | ref :: rest =>
    (u16le ref.length ++ ref ++ u32le ((assocGet counts ref).getD 0)
        ++ u32le ((assocGet offsets ref).getD 0))
      ++ epilogBytes counts offsets rest

/-- `HPSIndex.close()` on a writer: build the footer `s`, write it followed
by `struct.pack('<I', len(s))`, and close the file object.  On an
already-closed writer the `mode == 'w'` branch is re-entered and
`self.fileobj.write(s)` raises before anything is written. -/
def HPSIndexW.close (w : HPSIndexW) : HPSIndexW × Option WErr :=
  let s := epilogBytes w.ref_counts w.ref_offsets w.refs
  if w.fileOpen then
    ({ w with fileBytes := w.fileBytes ++ s ++ u32le s.length, fileOpen := false }, none)
  else (w, some WErr.onClosedFile)

/-- The reader state of `HPSIndex` opened with mode `'r'`, after
`__init__` has parsed the epilog: the ordered reference names and the two
dicts.  (The per-reference record-loading that would populate `_forest` is
commented out in the source, so a reader state holds no position records.) -/
structure HPSIndexR where
  refs : List (List Nat)
  ref_offsets : List (List Nat × Nat)
  ref_counts : List (List Nat × Nat)
  deriving DecidableEq

/-- `self.fileobj.read(n)` at offset `pos` followed by `struct.unpack`:
succeeds with exactly `n` bytes, or raises `struct.error` when fewer than
`n` bytes remain. -/
def readN (bytes : List Nat) (pos n : Nat) : Except RdErr (List Nat) :=
  if pos + n ≤ bytes.length then Except.ok ((bytes.drop pos).take n)
  else Except.error RdErr.structError

/-- The epilog-parsing loop of `HPSIndex.__init__`:
`while epi_count < epilog_len:` read `'<H'` (name length), the name bytes,
and `'<II'` (count, offset); append the name to `refs` and record the dict
entries; `epi_count += 2 + 4 + 4 + reflen`.  The loop consumes at least 10
epilog bytes per pass, so the structural fuel `epilogLen + 1` supplied by
`HPSIndexR.init` can never run out; the fuel-exhaustion branch is dead. -/
def readEntries (bytes : List Nat) (epilogLen : Nat) :
    Nat → Nat → Nat → HPSIndexR → Except RdErr HPSIndexR
  | 0, _, _, _ => Except.error RdErr.structError
  | fuel + 1, pos, epiCount, r =>
    if epiCount < epilogLen then
      match readN bytes pos 2 with
      | Except.error e => Except.error e
      | Except.ok lenB =>
        let reflen := decodeLE lenB
        match readN bytes (pos + 2) reflen with
        | Except.error e => Except.error e
        | Except.ok refname =>
          match readN bytes (pos + 2 + reflen) 8 with
          | Except.error e => Except.error e
          | Except.ok co =>
            readEntries bytes epilogLen fuel (pos + 10 + reflen) (epiCount + 10 + reflen)
              { refs := r.refs ++ [refname]
                ref_offsets := assocSet r.ref_offsets refname (decodeLE (co.drop 4))
                ref_counts := assocSet r.ref_counts refname (decodeLE (co.take 4)) }
    else Except.ok r

/-- `HPSIndex.__init__(fname, 'r')`: read and assert the magic, read the
trailing `'<I'` as `epilog_len`, seek to `-(epilog_len + 4)` from the end
(an `IOError` if that lands before the start of the file), and run the
epilog-parsing loop. -/
def HPSIndexR.init (bytes : List Nat) : Except RdErr HPSIndexR :=
  match readN bytes 0 4 with
  | Except.error e => Except.error e
  | Except.ok magicB =>
    if decodeLE magicB = HPSIndex_magic then
      match readN bytes (bytes.length - 4) 4 with
      | Except.error e => Except.error e
      | Except.ok lenB =>
        let epilogLen := decodeLE lenB
        if bytes.length < epilogLen + 4 then Except.error RdErr.seekError
        else
          readEntries bytes epilogLen (epilogLen + 1) (bytes.length - 4 - epilogLen) 0
            { refs := [], ref_offsets := [], ref_counts := [] }
    else Except.error RdErr.assertionError

/-- One decoded position record of the body format `'<III'`: `position`,
`runLength` (the source's "repeat count"), `collapsedOffset`. -/
structure PosRecord where
  position : Nat
  runLength : Nat
  collapsedOffset : Nat
  deriving DecidableEq

/-- Modelled from the spec: the Per-Reference Coordinate Index query
`originalToCollapsed` (spec 4.4).  The source's per-reference lookup
structure (`_forest`) and its record-loading are commented out, so the query
is taken from the spec's words: find the greatest record with
`position <= pos` over the position-ordered records (none found: identity,
offset zero); the result is `collapsedOffset + max(0, pos - position)`,
capped to exactly `collapsedOffset` when `pos` falls strictly inside
`[position, position + runLength)`. -/
def originalToCollapsed (recs : List PosRecord) (pos : Nat) : Nat :=
  match recs.foldl (fun acc r => if r.position ≤ pos then some r else acc) none with
  | none => pos
  | some r =>
    if pos < r.position + r.runLength then r.collapsedOffset
    else r.collapsedOffset + (pos - r.position)

/-- Follows the spec's words (spec 4.3): whether a byte list parses as a
sequence of ReferenceEntry records (16-bit name length, name bytes, 32-bit
record count, 32-bit byte offset) landing exactly on its end.  The fuel is
the byte count; each entry consumes at least 10 bytes. -/
def parsesExactlyAsEntries : Nat → List Nat → Bool
  | _, [] => true
  | 0, _ => false
  | fuel + 1, bytes =>
    if 2 ≤ bytes.length then
      let reflen := decodeLE (bytes.take 2)
      if 2 + reflen + 8 ≤ bytes.length then
        parsesExactlyAsEntries fuel (bytes.drop (2 + reflen + 8))
      else false
    else false

/-- Whether `footer` is a well-formed footer: the ReferenceEntry parse
consumes exactly the whole byte list. -/
def parsesExactly (footer : List Nat) : Bool :=
  parsesExactlyAsEntries footer.length footer

/-! Concrete write sessions used by the claims. -/

/-- The session of the spec's round-trip property: reference `"chr1"`
(bytes `[99,104,114,49]`) with records `(10,3)`, `(20,1)`, `(35,5)`,
up to but not including `close()`. -/
def c1w : HPSIndexW :=
  ((((HPSIndexW.init.write_ref [99, 104, 114, 49]).write 10 3).1.write 20 1).1.write 35 5).1

/-- The bytes of the finalized round-trip file. -/
def c1file : List Nat := (c1w.close).1.fileBytes

/-- A one-record session: reference `"chr1"` with the single record `(10,3)`. -/
def c2w : HPSIndexW := ((HPSIndexW.init.write_ref [99, 104, 114, 49]).write 10 3).1

/-- A two-reference session prefix: `"a"` with record `(10,3)`, then
`write_ref "b"`. -/
def c3w : HPSIndexW := (((HPSIndexW.init.write_ref [97]).write 10 3).1.write_ref [98])

/-- A 20-byte file whose trailing length field says the footer is 8 bytes,
while the entry starting there consumes 12 bytes (name length 2, name
`"AB"`, count 1, offset 8 — the offset field being the trailing length field
itself): the parse overshoots the `footerLength` boundary but stays inside
the file. -/
def c6file : List Nat :=
  [28, 96, 187, 204, 0, 0, 0, 0, 2, 0, 65, 66, 1, 0, 0, 0, 8, 0, 0, 0]

deriving instance DecidableEq for Except

/-! ## Claim theorems -/

/-- C1.  The round-trip of the spec fails on the code: after writing
`"chr1"` with records `(10,3)`, `(20,1)`, `(35,5)` (three records appended,
`_cur_count = 3`, body records carrying collapsed offsets `0, 3, 4`),
reading the finalized file back yields a reader whose footer entry for
`"chr1"` has record count `0` — `close()` never copies `_cur_count` into
`_ref_counts` for the last-begun reference — and whose state holds no
position records at all (the record-loading code is commented out), so no
`(position, runLength, collapsedOffset)` triples can be recovered. -/
theorem c1_roundtrip_lost_records :
    c1w.cur_count = 3 ∧
    c1file =
      u32le HPSIndex_magic ++
        (u32le 10 ++ u32le 3 ++ u32le 0) ++
        (u32le 20 ++ u32le 1 ++ u32le 3) ++
        (u32le 35 ++ u32le 5 ++ u32le 4) ++
        (u16le 4 ++ [99, 104, 114, 49] ++ u32le 0 ++ u32le 4) ++ u32le 14 ∧
    HPSIndexR.init c1file =
      Except.ok
        { refs := [[99, 104, 114, 49]]
          ref_offsets := [([99, 104, 114, 49], 4)]
          ref_counts := [([99, 104, 114, 49], 0)] } := by
  decide

/-- C2.  `close()` does not finalize the current reference's entry: after
`write_ref("chr1")` and one `write(10,3)` (so `_cur_count = 1`), the footer
written by `close()` stores record count `0` for `"chr1"`, as the reader
confirms. -/
theorem c2_close_drops_last_count :
    c2w.cur_count = 1 ∧
    HPSIndexR.init ((c2w.close).1.fileBytes) =
      Except.ok
        { refs := [[99, 104, 114, 49]]
          ref_offsets := [([99, 104, 114, 49], 4)]
          ref_counts := [([99, 104, 114, 49], 0)] } := by
  decide

/-- C3.  `write_ref` does not reset `_cur_genome_offset`: after writing
`(10,3)` under reference `"a"` and then beginning reference `"b"`, the
accumulator still holds `3`, and the first record written for `"b"` is
stored with collapsed offset `3` rather than `0`. -/
theorem c3_offset_not_reset_across_refs :
    c3w.cur_genome_offset = 3 ∧
    (c3w.write 5 2).1.fileBytes =
      u32le HPSIndex_magic ++
        (u32le 10 ++ u32le 3 ++ u32le 0) ++ (u32le 5 ++ u32le 2 ++ u32le 3) := by
  decide

/-- C5, counterexample.  `write` performs no ordering or state checks: a
record at a position equal to the previous one succeeds (no exception), and
a record written before any `write_ref` also succeeds. -/
theorem c5_no_order_or_state_check :
    ((((HPSIndexW.init.write_ref [97]).write 10 3).1.write 10 2).2 = none) ∧
    ((HPSIndexW.init.write 7 2).2 = none) := by
  decide

/-- C6, counterexample.  The 8-byte footer region of `c6file` does not parse
as ReferenceEntry records consuming exactly 8 bytes, yet the reader opens
the file successfully: the epilog loop stops as soon as `epi_count`
reaches `epilog_len`, without checking that the parse landed exactly on the
boundary (here it consumed 12 bytes, reading into the trailing length
field). -/
theorem c6_overshoot_accepted :
    parsesExactly ((c6file.drop 8).take 8) = false ∧
    HPSIndexR.init c6file =
      Except.ok
        { refs := [[65, 66]]
          ref_offsets := [([65, 66], 8)]
          ref_counts := [([65, 66], 1)] } := by
  decide

/-- C6, amended.  What the reader actually does on malformed tails of an
otherwise valid file: truncating the round-trip file to 50 bytes makes the
bytes under the trailing length field decode to `0`, and the file opens
successfully as an empty index; truncating to 54 bytes leaves a parse whose
name-length read points past end-of-file, raising `struct.error`; truncating
to 49 bytes yields a trailing length field larger than the file, so the
seek to the footer raises an `IOError`.  No exact-boundary check exists. -/
theorem c6_truncation_behaviour :
    HPSIndexR.init (c1file.take 50) =
      Except.ok { refs := [], ref_offsets := [], ref_counts := [] } ∧
    HPSIndexR.init (c1file.take 54) = Except.error RdErr.structError ∧
    HPSIndexR.init (c1file.take 49) = Except.error RdErr.seekError := by
  decide

/-- C8, counterexample.  A second `close()` is not a no-op: it re-enters the
`mode == 'w'` branch and writes the footer to an already-closed file object,
raising a `ValueError`. -/
theorem c8_second_close_raises :
    (((HPSIndexW.init.close).1.close).2 = some WErr.onClosedFile) ∧
    ¬ (((HPSIndexW.init.close).1.close).2 = none) := by
  decide

/-- C7.  A run length above `0xFFFFFFFF` is rejected by `write` before any
mutation: the exception is raised first, so no record bytes are appended and
`_cur_pos`, `_cur_count` and `_cur_genome_offset` are all left exactly as
they were (the returned state is the input state). -/
theorem c7_overflow_rejected (w : HPSIndexW) (pos count : Nat)
    (h : count > 0xFFFFFFFF) :
    w.write pos count = (w, some WErr.repeatCountTooHigh) := by
  unfold HPSIndexW.write
  simp [h]

/-- Witness for `c7_overflow_rejected` at `count = 2^32` on a fresh writer. -/
theorem c7_overflow_rejected_witness :
    4294967296 > 0xFFFFFFFF ∧
    HPSIndexW.init.write 0 4294967296 = (HPSIndexW.init, some WErr.repeatCountTooHigh) :=
  ⟨by decide, c7_overflow_rejected HPSIndexW.init 0 4294967296 (by decide)⟩

/-- C8, amended.  On an already-closed writer, `close()` raises (the footer
write hits a closed file object) and leaves the writer state — including the
file bytes — unchanged; it is an error, not a silent no-op. -/
theorem c8_close_on_closed (w : HPSIndexW) (h : w.fileOpen = false) :
    w.close = (w, some WErr.onClosedFile) := by
  unfold HPSIndexW.close
  simp [h]

/-- Witness for `c8_close_on_closed` on the writer produced by a first
`close()` of a fresh session. -/
theorem c8_close_on_closed_witness :
    (HPSIndexW.init.close).1.fileOpen = false ∧
    (HPSIndexW.init.close).1.close = ((HPSIndexW.init.close).1, some WErr.onClosedFile) :=
  ⟨by decide, c8_close_on_closed (HPSIndexW.init.close).1 (by decide)⟩

/-- The success equation for `write`: with the run length, the position and
the running genome offset all in `struct.pack` range and the file object
open, the record is appended and the counters advance. -/
theorem write_success (w : HPSIndexW) (pos count : Nat)
    (h₁ : count ≤ 0xFFFFFFFF) (hp : pos ≤ 0xFFFFFFFF)
    (hg : w.cur_genome_offset ≤ 0xFFFFFFFF) (h₂ : w.fileOpen = true) :
    w.write pos count =
      ({ w with
          fileBytes := w.fileBytes ++ (u32le pos ++ u32le count ++ u32le w.cur_genome_offset)
          cur_pos := w.cur_pos + 12
          cur_count := w.cur_count + 1
          cur_genome_offset := w.cur_genome_offset + count }, none) := by
  unfold HPSIndexW.write
  rw [if_neg (by omega), if_neg (by omega), if_pos h₂]

/-- C5, amended.  `write` performs no position-ordering and no writer-state
validation: whenever the values handed to `struct.pack` are representable
(`count`, `pos` and the running `_cur_genome_offset` all at most
`0xFFFFFFFF`) and the file object is open, it succeeds — regardless of
position ordering and of whether any reference was begun — and
unconditionally appends the record, advancing the counters.  The only
failures `write` has are the explicit run-length range check, the
`struct.error` raised by `struct.pack` for an out-of-range position or
genome offset, and writing on a closed file object; none of them involves
ordering or reference state. -/
theorem c5_write_no_validation (w : HPSIndexW) (pos count : Nat)
    (h₁ : count ≤ 0xFFFFFFFF) (hp : pos ≤ 0xFFFFFFFF)
    (hg : w.cur_genome_offset ≤ 0xFFFFFFFF) (h₂ : w.fileOpen = true) :
    w.write pos count =
      ({ w with
          fileBytes := w.fileBytes ++ (u32le pos ++ u32le count ++ u32le w.cur_genome_offset)
          cur_pos := w.cur_pos + 12
          cur_count := w.cur_count + 1
          cur_genome_offset := w.cur_genome_offset + count }, none) :=
  write_success w pos count h₁ hp hg h₂

/-- Witness for `c5_write_no_validation`: an out-of-order record (position
10 twice) on a fresh writer with reference `"a"` begun. -/
theorem c5_write_no_validation_witness :
    (3 : Nat) ≤ 0xFFFFFFFF ∧ (10 : Nat) ≤ 0xFFFFFFFF ∧
    (((HPSIndexW.init.write_ref [97]).write 10 3).1).cur_genome_offset ≤ 0xFFFFFFFF ∧
    ((HPSIndexW.init.write_ref [97]).write 10 3).1.fileOpen = true ∧
    (((HPSIndexW.init.write_ref [97]).write 10 3).1.write 10 3 =
      ({ ((HPSIndexW.init.write_ref [97]).write 10 3).1 with
          fileBytes := (((HPSIndexW.init.write_ref [97]).write 10 3).1).fileBytes ++
            (u32le 10 ++ u32le 3 ++
              u32le ((((HPSIndexW.init.write_ref [97]).write 10 3).1).cur_genome_offset))
          cur_pos := (((HPSIndexW.init.write_ref [97]).write 10 3).1).cur_pos + 12
          cur_count := (((HPSIndexW.init.write_ref [97]).write 10 3).1).cur_count + 1
          cur_genome_offset :=
            (((HPSIndexW.init.write_ref [97]).write 10 3).1).cur_genome_offset + 3 }, none)) :=
  ⟨by decide, by decide, by decide, by decide,
    c5_write_no_validation (((HPSIndexW.init.write_ref [97]).write 10 3).1) 10 3
      (by decide) (by decide) (by decide) (by decide)⟩

/-- C10, counterexample.  `write` with run length 0 does not succeed for
every position: at a position above the `'<I'` range, `struct.pack` raises
`struct.error` before anything happens — the returned state is the input
state, so no record bytes are appended and the counters are unchanged —
refuting the claim's unconditional success. -/
theorem c10_large_position_raises :
    (HPSIndexW.init.write_ref [97]).write 4294967296 0
      = (HPSIndexW.init.write_ref [97], some WErr.packError) ∧
    ¬ ((HPSIndexW.init.write_ref [97]).write 4294967296 0).2 = none := by
  decide

/-- C10, amended.  With a current reference, the file open, and the values
handed to `struct.pack` representable (`pos` and the running
`_cur_genome_offset` at most `0xFFFFFFFF`), `write(pos, 0)` succeeds:
`0 > 0xFFFFFFFF` is false, so a 12-byte record with run length 0 is
appended, `_cur_count` grows by one, and `_cur_genome_offset` is unchanged
(it advances by the run length, 0). -/
theorem c10_zero_runlength (w : HPSIndexW) (pos : Nat) (r : List Nat)
    (h₀ : w.cur_ref = some r) (hp : pos ≤ 0xFFFFFFFF)
    (hg : w.cur_genome_offset ≤ 0xFFFFFFFF) (h₁ : w.fileOpen = true) :
    w.write pos 0 =
      ({ w with
          fileBytes := w.fileBytes ++ (u32le pos ++ u32le 0 ++ u32le w.cur_genome_offset)
          cur_pos := w.cur_pos + 12
          cur_count := w.cur_count + 1
          cur_genome_offset := w.cur_genome_offset }, none) ∧
    (u32le pos ++ u32le 0 ++ u32le w.cur_genome_offset).length = 12 := by
  refine ⟨?_, by simp [u32le]⟩
  have h := write_success w pos 0 (by omega) hp hg h₁
  rw [Nat.add_zero] at h
  exact h

/-- Witness for `c10_zero_runlength` at position 5 after beginning
reference `"a"`. -/
theorem c10_zero_runlength_witness :
    (HPSIndexW.init.write_ref [97]).cur_ref = some [97] ∧
    (5 : Nat) ≤ 0xFFFFFFFF ∧
    (HPSIndexW.init.write_ref [97]).cur_genome_offset ≤ 0xFFFFFFFF ∧
    (HPSIndexW.init.write_ref [97]).fileOpen = true ∧
    ((HPSIndexW.init.write_ref [97]).write 5 0 =
        ({ HPSIndexW.init.write_ref [97] with
            fileBytes := (HPSIndexW.init.write_ref [97]).fileBytes ++
              (u32le 5 ++ u32le 0 ++ u32le (HPSIndexW.init.write_ref [97]).cur_genome_offset)
            cur_pos := (HPSIndexW.init.write_ref [97]).cur_pos + 12
            cur_count := (HPSIndexW.init.write_ref [97]).cur_count + 1
            cur_genome_offset := (HPSIndexW.init.write_ref [97]).cur_genome_offset }, none) ∧
      (u32le 5 ++ u32le 0 ++ u32le (HPSIndexW.init.write_ref [97]).cur_genome_offset).length
        = 12) :=
  ⟨by decide, by decide, by decide, by decide,
    c10_zero_runlength (HPSIndexW.init.write_ref [97]) 5 [97] (by decide) (by decide)
      (by decide) (by decide)⟩

/-- C4, counterexample.  `originalToCollapsed` is not non-decreasing: with
the single record `(10, 3, 0)`, position 9 (before any record) maps to
itself, 9, while position 10 maps to the record's collapsed offset 0.
Further, inside-run constancy needs runs to be disjoint: with the records
`(10, 100, 0)` and `(20, 1, 100)` — strictly increasing positions and
cumulative offsets, as stored — position 50 lies strictly inside the first
run's interval `[10, 110)` yet maps through the second record to 130, not to
the first run's collapsed offset 0. -/
theorem c4_not_monotone :
    ¬ originalToCollapsed [⟨10, 3, 0⟩] 9 ≤ originalToCollapsed [⟨10, 3, 0⟩] 10 ∧
    originalToCollapsed [⟨10, 100, 0⟩, ⟨20, 1, 100⟩] 50 ≠ 0 := by
  decide

/-- Every element after the head of a chain of separated records starts at
or after the end of the head's run. -/
theorem chain_sep_head_le (r : PosRecord) (t : List PosRecord)
    (h : List.Chain' (fun a b => a.position + a.runLength ≤ b.position) (r :: t)) :
    ∀ x ∈ t, r.position + r.runLength ≤ x.position := by
  induction t generalizing r with
  | nil => intro x hx; cases hx
  | cons a t ih =>
    intro x hx
    rw [List.chain'_cons] at h
    rcases List.mem_cons.mp hx with rfl | hx
    · exact h.1
    · exact le_trans (le_trans h.1 (Nat.le_add_right _ _)) (ih a h.2 x hx)

/-- Folding the greatest-record-at-or-before-`pos` search over records that
all start after `pos` leaves the accumulator unchanged. -/
theorem foldl_find_const (pos : Nat) (t : List PosRecord) (a : Option PosRecord)
    (h : ∀ x ∈ t, ¬ x.position ≤ pos) :
    t.foldl (fun acc r => if r.position ≤ pos then some r else acc) a = a := by
  induction t generalizing a with
  | nil => rfl
  | cons b t ih =>
    simp only [List.foldl_cons]
    rw [if_neg (h b (List.mem_cons_self b t))]
    exact ih a fun x hx => h x (List.mem_cons_of_mem b hx)

/-- C4, amended.  For records whose runs are separated (each record starts
at or after the end of the previous record's run — as homopolymer runs are),
every position strictly inside a run's interval
`[position, position + runLength)` maps to exactly that run's
`collapsedOffset`.  (The non-decreasing part of the claim is false; see
`c4_not_monotone`.) -/
theorem c4_inside_run_constant (recs : List PosRecord)
    (hsep : List.Chain' (fun a b => a.position + a.runLength ≤ b.position) recs)
    (r : PosRecord) (hr : r ∈ recs) (pos : Nat)
    (h₁ : r.position ≤ pos) (h₂ : pos < r.position + r.runLength) :
    originalToCollapsed recs pos = r.collapsedOffset := by
  obtain ⟨s, t, rfl⟩ := List.append_of_mem hr
  have hchain : List.Chain' (fun a b => a.position + a.runLength ≤ b.position) (r :: t) :=
    (List.chain'_append.mp hsep).2.1
  have hafter : ∀ x ∈ t, ¬ x.position ≤ pos := fun x hx hle =>
    absurd (le_trans (chain_sep_head_le r t hchain x hx) hle) (Nat.not_le.mpr h₂)
  unfold originalToCollapsed
  have : (s ++ r :: t).foldl (fun acc x => if x.position ≤ pos then some x else acc) none
      = some r := by
    rw [show s ++ r :: t = (s ++ [r]) ++ t by simp, List.foldl_append, List.foldl_append]
    simp only [List.foldl_cons, List.foldl_nil, if_pos h₁]
    exact foldl_find_const pos t _ hafter
  rw [this]
  simp [if_pos h₂]

/-- Witness for `c4_inside_run_constant`: position 11 inside the run
`(10, 3, 0)` of the round-trip record list maps to collapsed offset 0. -/
theorem c4_inside_run_constant_witness :
    List.Chain' (fun a b => a.position + a.runLength ≤ b.position)
      [(⟨10, 3, 0⟩ : PosRecord), ⟨20, 1, 3⟩, ⟨35, 5, 4⟩] ∧
    (⟨10, 3, 0⟩ : PosRecord) ∈ [(⟨10, 3, 0⟩ : PosRecord), ⟨20, 1, 3⟩, ⟨35, 5, 4⟩] ∧
    originalToCollapsed [(⟨10, 3, 0⟩ : PosRecord), ⟨20, 1, 3⟩, ⟨35, 5, 4⟩] 11 = 0 :=
  ⟨by simp [List.chain'_cons, List.chain'_singleton], by decide,
    c4_inside_run_constant [⟨10, 3, 0⟩, ⟨20, 1, 3⟩, ⟨35, 5, 4⟩]
      (by simp [List.chain'_cons, List.chain'_singleton])
      ⟨10, 3, 0⟩ (by decide) 11 (by decide) (by decide)⟩

/-! ## A write session as a command list (for the quantified round-trip) -/

/-- One writer call: `write_ref(name)` or `write(pos, count)`. -/
inductive WCmd
  | wref (name : List Nat)
  | wrec (pos count : Nat)
  deriving DecidableEq

/-- Run a session: each command in order; an uncaught exception aborts the
remainder of the session, leaving the state reached at the raise. -/
def runW : HPSIndexW → List WCmd → HPSIndexW
  | w, [] => w
  | w, WCmd.wref name :: cs => runW (w.write_ref name) cs
  | w, WCmd.wrec p k :: cs =>
    match w.write p k with
    | (w₁, none) => runW w₁ cs
    | (w₁, some _) => w₁

/-- The reference names a session writes, in order. -/
def refNames : List WCmd → List (List Nat)
  | [] => []
  | WCmd.wref name :: cs => name :: refNames cs
  | WCmd.wrec _ _ :: cs => refNames cs

/-! ## Helper lemmas -/

/-- Every binding of `assocSet l k v` is the new binding or an old one. -/
theorem assocSet_mem : ∀ (l : List (List Nat × Nat)) (k : List Nat) (v : Nat),
    ∀ x ∈ assocSet l k v, x = (k, v) ∨ x ∈ l
  | [], k, v => by
    intro x hx
    rw [assocSet] at hx
    exact Or.inl (List.mem_singleton.mp hx)
  | (k₀, v₀) :: rest, k, v => by
    intro x hx
    rw [assocSet] at hx
    by_cases h : k₀ = k
    · rw [if_pos h] at hx
      rcases List.mem_cons.mp hx with rfl | hx
      · exact Or.inl rfl
      · exact Or.inr (List.mem_cons_of_mem _ hx)
    · rw [if_neg h] at hx
      rcases List.mem_cons.mp hx with rfl | hx
      · exact Or.inr (List.mem_cons_self _ _)
      · rcases assocSet_mem rest k v x hx with h₁ | h₁
        · exact Or.inl h₁
        · exact Or.inr (List.mem_cons_of_mem _ h₁)

/-- A successful `assocGet` lookup is a binding of the list. -/
theorem assocGet_mem : ∀ (l : List (List Nat × Nat)) (k : List Nat) (v : Nat),
    assocGet l k = some v → (k, v) ∈ l
  | [], k, v => by
    intro h
    rw [assocGet] at h
    exact absurd h (Option.noConfusion)
  | (k₀, v₀) :: rest, k, v => by
    intro h
    rw [assocGet] at h
    by_cases hk : k₀ = k
    · rw [if_pos hk] at h
      injection h with h
      subst hk h
      exact List.mem_cons_self _ _
    · rw [if_neg hk] at h
      exact List.mem_cons_of_mem _ (assocGet_mem rest k v h)

/-- Decoding an encoded 16-bit value recovers it when it is in range. -/
theorem decodeLE_u16le (n : Nat) (h : n < 65536) : decodeLE (u16le n) = n := by
  simp [u16le, decodeLE]
  omega

/-- Decoding an encoded 32-bit value recovers it when it is in range. -/
theorem decodeLE_u32le (n : Nat) (h : n < 4294967296) : decodeLE (u32le n) = n := by
  simp [u32le, decodeLE]
  omega

/-- A read of exactly the bytes `xs` sitting between `pre` and `rest`. -/
theorem readN_at (bytes pre xs rest : List Nat) (p n : Nat)
    (hb : bytes = pre ++ xs ++ rest) (hp : p = pre.length) (hn : n = xs.length) :
    readN bytes p n = Except.ok xs := by
  subst hb hp hn
  unfold readN
  rw [if_pos (by simp [List.length_append])]
  congr 1
  rw [List.append_assoc, List.drop_left, List.take_left]

/-- Length of one encoded footer entry. -/
theorem entry_length (ref : List Nat) (a b : Nat) :
    (u16le ref.length ++ ref ++ u32le a ++ u32le b).length = 10 + ref.length := by
  simp [u16le, u32le, List.length_append]
  omega

/-- The first four bytes of two packed 32-bit values. -/
theorem u32le_pair_take (a b : Nat) : (u32le a ++ u32le b).take 4 = u32le a := rfl

/-- The last four bytes of two packed 32-bit values. -/
theorem u32le_pair_drop (a b : Nat) : (u32le a ++ u32le b).drop 4 = u32le b := rfl

/-- One pass of the epilog loop over a well-placed encoded entry: read the
name length, the name, the count and the offset, and continue 10 + name
length bytes further on. -/
theorem readEntries_step (bytes : List Nat) (epilogLen fuel epiCount : Nat)
    (pre ref rest' : List Nat) (cnt off : Nat) (acc : HPSIndexR)
    (hb : bytes = pre ++ (u16le ref.length ++ ref ++ u32le cnt ++ u32le off) ++ rest')
    (hlt : epiCount < epilogLen)
    (hlen : ref.length < 65536) (hcnt : cnt < 4294967296) (hoff : off < 4294967296) :
    readEntries bytes epilogLen (fuel + 1) pre.length epiCount acc =
      readEntries bytes epilogLen fuel (pre.length + 10 + ref.length)
        (epiCount + 10 + ref.length)
        { refs := acc.refs ++ [ref]
          ref_offsets := assocSet acc.ref_offsets ref off
          ref_counts := assocSet acc.ref_counts ref cnt } := by
  have h₁ : readN bytes pre.length 2 = Except.ok (u16le ref.length) :=
    readN_at bytes pre (u16le ref.length)
      (ref ++ u32le cnt ++ u32le off ++ rest') pre.length 2
      (by rw [hb]; simp [List.append_assoc]) rfl (by simp [u16le])
  have h₂ : readN bytes (pre.length + 2) ref.length = Except.ok ref :=
    readN_at bytes (pre ++ u16le ref.length) ref
      (u32le cnt ++ u32le off ++ rest') (pre.length + 2) ref.length
      (by rw [hb]; simp [List.append_assoc]) (by simp [u16le]) rfl
  have h₃ : readN bytes (pre.length + 2 + ref.length) 8
      = Except.ok (u32le cnt ++ u32le off) :=
    readN_at bytes (pre ++ u16le ref.length ++ ref) (u32le cnt ++ u32le off)
      rest' (pre.length + 2 + ref.length) 8
      (by rw [hb]; simp [List.append_assoc]) (by simp [u16le]; omega) (by simp [u32le])
  rw [readEntries, if_pos hlt, h₁]
  simp only [decodeLE_u16le ref.length hlen, h₂, h₃, u32le_pair_take, u32le_pair_drop,
    decodeLE_u32le cnt hcnt, decodeLE_u32le off hoff]

/-- The footer encoding has at least one byte per reference. -/
theorem epilogBytes_length_ge (counts offsets : List (List Nat × Nat)) :
    ∀ refs : List (List Nat), refs.length ≤ (epilogBytes counts offsets refs).length
  | [] => by simp [epilogBytes]
  | ref :: rest => by
    rw [epilogBytes]
    have h := epilogBytes_length_ge counts offsets rest
    simp only [List.length_cons, List.length_append, List.length_nil, u16le, u32le]
    omega

/-- The footer encoding is at most 65545 bytes per reference when every
name fits in 16 bits. -/
theorem epilogBytes_length_le (counts offsets : List (List Nat × Nat)) :
    ∀ refs : List (List Nat), (∀ r ∈ refs, r.length < 65536) →
      (epilogBytes counts offsets refs).length ≤ 65545 * refs.length
  | [] => by
    intro _
    simp [epilogBytes]
  | ref :: rest => by
    intro h
    rw [epilogBytes]
    have h₁ := h ref (List.mem_cons_self _ _)
    have h₂ := epilogBytes_length_le counts offsets rest
      (fun r hr => h r (List.mem_cons_of_mem _ hr))
    simp only [List.length_cons, List.length_append, List.length_nil, u16le, u32le]
    omega

/-- Parsing an encoded footer placed after `pre`: with the loop bound set to
the initial count plus the encoding's length, the epilog loop consumes
exactly the encoded entries and succeeds, appending the reference names to
the accumulator in their order. -/
theorem readEntries_encoded (counts offsets : List (List Nat × Nat)) :
    ∀ (refs : List (List Nat)) (pre post : List Nat) (fuel epiCount : Nat) (acc : HPSIndexR),
    (∀ r ∈ refs, r.length < 65536) →
    (∀ r ∈ refs, (assocGet counts r).getD 0 < 4294967296) →
    (∀ r ∈ refs, (assocGet offsets r).getD 0 < 4294967296) →
    refs.length < fuel →
    ∃ rr : HPSIndexR,
      readEntries (pre ++ epilogBytes counts offsets refs ++ post)
          (epiCount + (epilogBytes counts offsets refs).length) fuel pre.length epiCount acc
        = Except.ok rr ∧
      rr.refs = acc.refs ++ refs
  | [], pre, post, fuel, epiCount, acc => by
    intro _ _ _ hfuel
    cases fuel with
    | zero => exact absurd hfuel (Nat.not_lt_zero _)
    | succ f =>
      refine ⟨acc, ?_, by simp⟩
      rw [epilogBytes]
      simp only [List.length_nil, Nat.add_zero, List.append_nil]
      rw [readEntries, if_neg (Nat.lt_irrefl _)]
  | ref :: rest, pre, post, fuel, epiCount, acc => by
    intro hn hc ho hfuel
    cases fuel with
    | zero => exact absurd hfuel (Nat.not_lt_zero _)
    | succ f =>
      have hlen := hn ref (List.mem_cons_self _ _)
      have hcnt := hc ref (List.mem_cons_self _ _)
      have hoff := ho ref (List.mem_cons_self _ _)
      have hstep := readEntries_step
        (pre ++ epilogBytes counts offsets (ref :: rest) ++ post)
        (epiCount + (epilogBytes counts offsets (ref :: rest)).length) f epiCount
        pre ref (epilogBytes counts offsets rest ++ post)
        ((assocGet counts ref).getD 0) ((assocGet offsets ref).getD 0) acc
        (by rw [epilogBytes]; simp [List.append_assoc])
        (by rw [epilogBytes]; simp only [List.length_append, List.length_cons, List.length_nil, u16le, u32le]; omega)
        hlen hcnt hoff
      rw [hstep]
      obtain ⟨rr, hrr, hrefs⟩ := readEntries_encoded counts offsets rest
        (pre ++ (u16le ref.length ++ ref ++ u32le ((assocGet counts ref).getD 0)
          ++ u32le ((assocGet offsets ref).getD 0)))
        post f (epiCount + 10 + ref.length)
        { refs := acc.refs ++ [ref]
          ref_offsets := assocSet acc.ref_offsets ref ((assocGet offsets ref).getD 0)
          ref_counts := assocSet acc.ref_counts ref ((assocGet counts ref).getD 0) }
        (fun r hr => hn r (List.mem_cons_of_mem _ hr))
        (fun r hr => hc r (List.mem_cons_of_mem _ hr))
        (fun r hr => ho r (List.mem_cons_of_mem _ hr))
        (by simp only [List.length_cons] at hfuel; omega)
      have e₁ : (pre ++ (u16le ref.length ++ ref ++ u32le ((assocGet counts ref).getD 0)
            ++ u32le ((assocGet offsets ref).getD 0)))
          ++ epilogBytes counts offsets rest ++ post
          = pre ++ epilogBytes counts offsets (ref :: rest) ++ post := by
        rw [epilogBytes]
        simp [List.append_assoc]
      have e₂ : epiCount + 10 + ref.length + (epilogBytes counts offsets rest).length
          = epiCount + (epilogBytes counts offsets (ref :: rest)).length := by
        rw [epilogBytes]
        simp only [List.length_append, List.length_cons, List.length_nil, u16le, u32le]
        omega
      have e₃ : (pre ++ (u16le ref.length ++ ref ++ u32le ((assocGet counts ref).getD 0)
            ++ u32le ((assocGet offsets ref).getD 0))).length
          = pre.length + 10 + ref.length := by
        rw [List.length_append, entry_length]
        omega
      rw [e₁, e₂, e₃] at hrr
      refine ⟨rr, hrr, ?_⟩
      rw [hrefs]
      simp

/-- Opening a well-formed finalized file — magic, body, an encoded footer
whose names fit 16 bits and whose counts and offsets fit 32 bits, and the
trailing footer-length field: the reader succeeds and reconstructs exactly
the footer's reference names, in order. -/
theorem initR_wellformed (refs : List (List Nat)) (counts offsets : List (List Nat × Nat))
    (body : List Nat)
    (hn : ∀ r ∈ refs, r.length < 65536)
    (hc : ∀ r ∈ refs, (assocGet counts r).getD 0 < 4294967296)
    (ho : ∀ r ∈ refs, (assocGet offsets r).getD 0 < 4294967296)
    (hs : (epilogBytes counts offsets refs).length < 4294967296) :
    ∃ rr : HPSIndexR,
      HPSIndexR.init (u32le HPSIndex_magic ++ body ++ epilogBytes counts offsets refs
          ++ u32le (epilogBytes counts offsets refs).length)
        = Except.ok rr ∧
      rr.refs = refs := by
  set s := epilogBytes counts offsets refs with hs_def
  set bytes := u32le HPSIndex_magic ++ body ++ s ++ u32le s.length with hb_def
  have hblen : bytes.length = 4 + body.length + s.length + 4 := by
    rw [hb_def]
    simp only [List.length_append, u32le, List.length_cons, List.length_nil]
  have h₁ : readN bytes 0 4 = Except.ok (u32le HPSIndex_magic) :=
    readN_at bytes [] (u32le HPSIndex_magic) (body ++ s ++ u32le s.length) 0 4
      (by rw [hb_def]; simp [List.append_assoc]) rfl (by simp [u32le])
  have h₂ : readN bytes (bytes.length - 4) 4 = Except.ok (u32le s.length) :=
    readN_at bytes (u32le HPSIndex_magic ++ body ++ s) (u32le s.length) []
      (bytes.length - 4) 4
      (by rw [hb_def]; simp [List.append_assoc])
      (by simp only [List.length_append, u32le, List.length_cons, List.length_nil]; omega)
      (by simp [u32le])
  rw [HPSIndexR.init, h₁]
  simp only [decodeLE_u32le HPSIndex_magic (by decide), eq_self_iff_true, if_true, h₂,
    decodeLE_u32le s.length hs]
  rw [if_neg (by omega)]
  obtain ⟨rr, hrr, hrefs⟩ := readEntries_encoded counts offsets refs
    (u32le HPSIndex_magic ++ body) (u32le s.length) (s.length + 1) 0
    { refs := [], ref_offsets := [], ref_counts := [] }
    hn hc ho (Nat.lt_succ_of_le (epilogBytes_length_ge counts offsets refs))
  have e₁ : (u32le HPSIndex_magic ++ body) ++ s ++ u32le s.length = bytes := by
    rw [hb_def]
  have e₂ : (0 : Nat) + s.length = s.length := Nat.zero_add _
  have e₃ : (u32le HPSIndex_magic ++ body).length = bytes.length - 4 - s.length := by
    simp only [List.length_append, u32le, List.length_cons, List.length_nil]
    omega
  rw [← hs_def, e₁, e₂, e₃] at hrr
  refine ⟨rr, hrr, ?_⟩
  rw [hrefs]
  simp

/-- Writer bookkeeping bound after at most `n` commands: the file object is
open, the file starts with the magic, reference names fit 16 bits, and the
write cursor, record counters, and recorded offsets are bounded through the
cursor (every record moved the cursor by 12 from its initial value 4). -/
def WBound (w : HPSIndexW) (n : Nat) : Prop :=
  w.fileOpen = true ∧
  (∃ body, w.fileBytes = u32le HPSIndex_magic ++ body) ∧
  (∀ r ∈ w.refs, r.length < 65536) ∧
  w.cur_pos ≤ 4 + 12 * n ∧
  w.refs.length ≤ n ∧
  12 * w.cur_count + 4 ≤ w.cur_pos ∧
  (∀ p ∈ w.ref_counts, 12 * p.2 + 4 ≤ w.cur_pos) ∧
  (∀ p ∈ w.ref_offsets, p.2 ≤ w.cur_pos)


/-- Field-level description of `write_ref`: the name joins the ordered list,
the offset dict records the current cursor, the counter resets, and the
counts dict is either untouched (no truthy current reference) or updated at
the previous current reference with the old counter. -/
theorem write_ref_spec (w : HPSIndexW) (name : List Nat) :
    (w.write_ref name).fileOpen = w.fileOpen ∧
    (w.write_ref name).fileBytes = w.fileBytes ∧
    (w.write_ref name).cur_pos = w.cur_pos ∧
    (w.write_ref name).refs = w.refs ++ [name] ∧
    (w.write_ref name).cur_count = 0 ∧
    (w.write_ref name).ref_offsets = assocSet w.ref_offsets name w.cur_pos ∧
    (w.write_ref name).cur_genome_offset = w.cur_genome_offset ∧
    ((w.write_ref name).ref_counts = w.ref_counts ∨
      ∃ r, (w.write_ref name).ref_counts = assocSet w.ref_counts r w.cur_count) := by
  unfold HPSIndexW.write_ref
  cases hcr : w.cur_ref with
  | none => exact ⟨rfl, rfl, rfl, rfl, rfl, rfl, rfl, Or.inl rfl⟩
  | some r =>
    cases r with
    | nil => exact ⟨rfl, rfl, rfl, rfl, rfl, rfl, rfl, Or.inl rfl⟩
    | cons a rs => exact ⟨rfl, rfl, rfl, rfl, rfl, rfl, rfl, Or.inr ⟨a :: rs, rfl⟩⟩

/-- `write_ref` preserves the bookkeeping bound (one more command) and
appends the new name to the ordered reference list. -/
theorem WBound_write_ref (w : HPSIndexW) (n : Nat) (name : List Nat)
    (hname : name.length < 65536) (h : WBound w n) :
    WBound (w.write_ref name) (n + 1) ∧
    (w.write_ref name).refs = w.refs ++ [name] ∧
    (w.write_ref name).cur_genome_offset = w.cur_genome_offset := by
  obtain ⟨h₁, ⟨body, h₂⟩, h₃, h₄, h₅, h₆, h₇, h₈⟩ := h
  obtain ⟨e₁, e₂, e₃, e₄, e₅, e₆, e_g, e₇⟩ := write_ref_spec w name
  refine ⟨⟨?_, ?_, ?_, ?_, ?_, ?_, ?_, ?_⟩, e₄, e_g⟩
  · rw [e₁, h₁]
  · exact ⟨body, by rw [e₂, h₂]⟩
  · rw [e₄]
    intro r hr
    rcases List.mem_append.mp hr with hr | hr
    · exact h₃ r hr
    · rw [List.mem_singleton.mp hr]
      exact hname
  · rw [e₃]
    omega
  · rw [e₄]
    simp only [List.length_append, List.length_cons, List.length_nil]
    omega
  · rw [e₅, e₃]
    omega
  · rcases e₇ with e₇ | ⟨r, e₇⟩
    · rw [e₇, e₃]
      exact h₇
    · rw [e₇, e₃]
      intro p hp
      rcases assocSet_mem _ _ _ p hp with rfl | hp
      · exact h₆
      · exact h₇ p hp
  · rw [e₆, e₃]
    intro p hp
    rcases assocSet_mem _ _ _ p hp with rfl | hp
    · exact le_refl _
    · exact h₈ p hp

/-- A successful `write` preserves the bookkeeping bound (one more command)
and leaves the reference list unchanged. -/
theorem WBound_write (w : HPSIndexW) (n : Nat) (pos count : Nat)
    (hcount : count ≤ 0xFFFFFFFF) (hpos : pos ≤ 0xFFFFFFFF)
    (hoff : w.cur_genome_offset ≤ 0xFFFFFFFF) (h : WBound w n) :
    (w.write pos count).2 = none ∧
    WBound (w.write pos count).1 (n + 1) ∧
    (w.write pos count).1.refs = w.refs ∧
    (w.write pos count).1.cur_genome_offset = w.cur_genome_offset + count := by
  obtain ⟨h₁, ⟨body, h₂⟩, h₃, h₄, h₅, h₆, h₇, h₈⟩ := h
  rw [write_success w pos count hcount hpos hoff h₁]
  refine ⟨rfl,
    ⟨h₁,
      ⟨body ++ (u32le pos ++ u32le count ++ u32le w.cur_genome_offset), ?_⟩,
      h₃, ?_, ?_, ?_, ?_, ?_⟩, rfl, rfl⟩
  · show w.fileBytes ++ _ = _
    rw [h₂, List.append_assoc]
  · show w.cur_pos + 12 ≤ 4 + 12 * (n + 1)
    omega
  · show w.refs.length ≤ n + 1
    omega
  · show 12 * (w.cur_count + 1) + 4 ≤ w.cur_pos + 12
    omega
  · intro p hp
    exact le_trans (h₇ p hp) (Nat.le_add_right _ 12)
  · intro p hp
    exact le_trans (h₈ p hp) (Nat.le_add_right _ 12)

/-- The run lengths a session passes to `write`, in order. -/
def recCounts : List WCmd → List Nat
  | [] => []
  | WCmd.wref _ :: cs => recCounts cs
  | WCmd.wrec _ k :: cs => k :: recCounts cs

/-- The positions a session passes to `write`, in order. -/
def recPositions : List WCmd → List Nat
  | [] => []
  | WCmd.wref _ :: cs => recPositions cs
  | WCmd.wrec q _ :: cs => q :: recPositions cs

/-- `close` on an open writer: append the footer and its length, release
the file object. -/
theorem close_spec (w : HPSIndexW) (h : w.fileOpen = true) :
    w.close =
      ({ w with
          fileBytes := w.fileBytes ++ epilogBytes w.ref_counts w.ref_offsets w.refs
            ++ u32le (epilogBytes w.ref_counts w.ref_offsets w.refs).length
          fileOpen := false }, none) := by
  unfold HPSIndexW.close
  simp [h]

/-- Running a session preserves the bookkeeping bound (one command each)
and appends exactly the session's reference names, provided every name fits
16 bits, every run length and position fits 32 bits, and the genome offset
accumulated over the whole session stays in 32-bit range (so no command
raises). -/
theorem runW_inv : ∀ (cmds : List WCmd) (w : HPSIndexW) (n : Nat),
    (∀ name ∈ refNames cmds, name.length < 65536) →
    (∀ k ∈ recCounts cmds, k ≤ 0xFFFFFFFF) →
    (∀ q ∈ recPositions cmds, q ≤ 0xFFFFFFFF) →
    w.cur_genome_offset + (recCounts cmds).sum ≤ 0xFFFFFFFF →
    WBound w n →
    WBound (runW w cmds) (n + cmds.length) ∧
    (runW w cmds).refs = w.refs ++ refNames cmds
  | [], w, n => by
    intro _ _ _ _ h
    rw [runW, refNames]
    exact ⟨by simpa using h, by rw [List.append_nil]⟩
  | WCmd.wref name :: cs, w, n => by
    intro h₁ h₂ h₃ h₄ h
    have hname : name.length < 65536 := by
      apply h₁
      rw [refNames]
      exact List.mem_cons_self _ _
    have hb := WBound_write_ref w n name hname h
    have ih := runW_inv cs (w.write_ref name) (n + 1)
      (fun x hx => h₁ x (by rw [refNames]; exact List.mem_cons_of_mem _ hx))
      (fun k hk => h₂ k (by rw [recCounts]; exact hk))
      (fun q hq => h₃ q (by rw [recPositions]; exact hq))
      (by rw [hb.2.2]; rw [recCounts] at h₄; exact h₄)
      hb.1
    rw [runW]
    refine ⟨?_, ?_⟩
    · have e : n + 1 + cs.length = n + (WCmd.wref name :: cs).length := by
        rw [List.length_cons]
        omega
      rw [← e]
      exact ih.1
    · rw [ih.2, hb.2.1, refNames]
      simp [List.append_assoc]
  | WCmd.wrec p k :: cs, w, n => by
    intro h₁ h₂ h₃ h₄ h
    have hk : k ≤ 0xFFFFFFFF := by
      apply h₂
      rw [recCounts]
      exact List.mem_cons_self _ _
    have hp : p ≤ 0xFFFFFFFF := by
      apply h₃
      rw [recPositions]
      exact List.mem_cons_self _ _
    have hsum : (recCounts (WCmd.wrec p k :: cs)).sum = k + (recCounts cs).sum := by
      rw [recCounts, List.sum_cons]
    have hoff : w.cur_genome_offset ≤ 0xFFFFFFFF := by
      rw [hsum] at h₄
      omega
    have hb := WBound_write w n p k hk hp hoff h
    have ih := runW_inv cs (w.write p k).1 (n + 1)
      (fun x hx => h₁ x (by rw [refNames]; exact hx))
      (fun x hx => h₂ x (by rw [recCounts]; exact List.mem_cons_of_mem _ hx))
      (fun x hx => h₃ x (by rw [recPositions]; exact List.mem_cons_of_mem _ hx))
      (by rw [hb.2.2.2]; rw [hsum] at h₄; omega)
      hb.2.1
    have e : w.write p k = ((w.write p k).1, none) := by
      rw [← hb.1]
    rw [runW, e]
    refine ⟨?_, ?_⟩
    · have e₂ : n + 1 + cs.length = n + (WCmd.wrec p k :: cs).length := by
        rw [List.length_cons]
        omega
      rw [← e₂]
      exact ih.1
    · rw [ih.2, hb.2.2.1, refNames]

/-- C9.  For every write session (any interleaving of `write_ref` and
`write` calls from a fresh writer) whose reference names fit 16 bits, whose
run lengths and positions fit 32 bits, whose total collapsed length (the
sum of all run lengths, i.e. the final genome-offset accumulator) fits 32
bits, and whose length keeps every stored count, offset and the footer
length in 32-bit range — i.e. every session in which no `struct.pack` value
is out of range, so no call raises — closing the writer and opening the
produced bytes with the reader succeeds and `listReferences` — the reader's
ordered `refs` list — is exactly the session's reference names in write
order. -/
theorem c9_list_references_roundtrip (cmds : List WCmd)
    (h₁ : ∀ name ∈ refNames cmds, name.length < 65536)
    (h₂ : ∀ k ∈ recCounts cmds, k ≤ 0xFFFFFFFF)
    (h₃ : 65546 * cmds.length < 4294967296)
    (h₄ : ∀ q ∈ recPositions cmds, q ≤ 0xFFFFFFFF)
    (h₅ : (recCounts cmds).sum ≤ 0xFFFFFFFF) :
    ∃ rr : HPSIndexR,
      HPSIndexR.init ((runW HPSIndexW.init cmds).close).1.fileBytes = Except.ok rr ∧
      rr.refs = refNames cmds := by
  have hinit : WBound HPSIndexW.init 0 :=
    ⟨rfl, ⟨[], (List.append_nil _).symm⟩,
      fun r hr => absurd hr (List.not_mem_nil r),
      Nat.le_refl _, Nat.le_refl _, Nat.le_refl _,
      fun p hp => absurd hp (List.not_mem_nil p),
      fun p hp => absurd hp (List.not_mem_nil p)⟩
  obtain ⟨hB, hrefs⟩ := runW_inv cmds HPSIndexW.init 0 h₁ h₂ h₄
    (by show (0 : Nat) + (recCounts cmds).sum ≤ 0xFFFFFFFF; omega) hinit
  obtain ⟨g₁, ⟨body, g₂⟩, g₃, g₄, g₅, g₆, g₇, g₈⟩ := hB
  have hfile : ((runW HPSIndexW.init cmds).close).1.fileBytes
      = u32le HPSIndex_magic ++ body
        ++ epilogBytes (runW HPSIndexW.init cmds).ref_counts
            (runW HPSIndexW.init cmds).ref_offsets (runW HPSIndexW.init cmds).refs
        ++ u32le (epilogBytes (runW HPSIndexW.init cmds).ref_counts
            (runW HPSIndexW.init cmds).ref_offsets (runW HPSIndexW.init cmds).refs).length := by
    rw [close_spec _ g₁]
    show (runW HPSIndexW.init cmds).fileBytes ++ _ ++ _ = _
    rw [g₂]
  have hcpos : (runW HPSIndexW.init cmds).cur_pos < 4294967296 := by
    have : (0 : Nat) + cmds.length = cmds.length := Nat.zero_add _
    rw [this] at g₄
    omega
  have hc : ∀ r ∈ (runW HPSIndexW.init cmds).refs,
      (assocGet (runW HPSIndexW.init cmds).ref_counts r).getD 0 < 4294967296 := by
    intro r hr
    cases hg : assocGet (runW HPSIndexW.init cmds).ref_counts r with
    | none => exact Nat.lt_of_lt_of_le (by decide) (Nat.le_refl _)
    | some v =>
      have := g₇ (r, v) (assocGet_mem _ _ _ hg)
      simp only [Option.getD]
      omega
  have ho : ∀ r ∈ (runW HPSIndexW.init cmds).refs,
      (assocGet (runW HPSIndexW.init cmds).ref_offsets r).getD 0 < 4294967296 := by
    intro r hr
    cases hg : assocGet (runW HPSIndexW.init cmds).ref_offsets r with
    | none => exact Nat.lt_of_lt_of_le (by decide) (Nat.le_refl _)
    | some v =>
      have := g₈ (r, v) (assocGet_mem _ _ _ hg)
      simp only [Option.getD]
      omega
  have hs : (epilogBytes (runW HPSIndexW.init cmds).ref_counts
      (runW HPSIndexW.init cmds).ref_offsets (runW HPSIndexW.init cmds).refs).length
      < 4294967296 := by
    have hle := epilogBytes_length_le (runW HPSIndexW.init cmds).ref_counts
      (runW HPSIndexW.init cmds).ref_offsets (runW HPSIndexW.init cmds).refs g₃
    have hlen : (runW HPSIndexW.init cmds).refs.length ≤ cmds.length := by
      have : (0 : Nat) + cmds.length = cmds.length := Nat.zero_add _
      rw [this] at g₅
      exact g₅
    have : 65545 * (runW HPSIndexW.init cmds).refs.length ≤ 65545 * cmds.length :=
      Nat.mul_le_mul_left _ hlen
    omega
  obtain ⟨rr, hrr, hrefs₂⟩ := initR_wellformed (runW HPSIndexW.init cmds).refs
    (runW HPSIndexW.init cmds).ref_counts (runW HPSIndexW.init cmds).ref_offsets
    body g₃ hc ho hs
  refine ⟨rr, ?_, ?_⟩
  · rw [hfile]
    exact hrr
  · rw [hrefs₂, hrefs]
    exact List.nil_append _
/-- Witness for `c9_list_references_roundtrip`: the session
`write_ref("chr1"); write(10,3); write_ref("chr2"); write(20,2)` reads back
as `["chr1", "chr2"]` in that order. -/
theorem c9_list_references_roundtrip_witness :
    ∃ rr : HPSIndexR,
      HPSIndexR.init ((runW HPSIndexW.init
          [WCmd.wref [99, 104, 114, 49], WCmd.wrec 10 3,
            WCmd.wref [99, 104, 114, 50], WCmd.wrec 20 2]).close).1.fileBytes
        = Except.ok rr ∧
      rr.refs = refNames
        [WCmd.wref [99, 104, 114, 49], WCmd.wrec 10 3,
          WCmd.wref [99, 104, 114, 50], WCmd.wrec 20 2] :=
  c9_list_references_roundtrip
    [WCmd.wref [99, 104, 114, 49], WCmd.wrec 10 3,
      WCmd.wref [99, 104, 114, 50], WCmd.wrec 20 2]
    (by decide) (by decide) (by decide) (by decide) (by decide)
